import Mathlib

/-!
# Thermocouple-ATmega32: MAX31855 sample decoding and LCD rendering

A shallow embedding of `Thermocouple_code/main.c` (avr-gcc, ATmega32) and the
properties of its decoder, its fixed-width formatter and its display routine.

Conventions of the embedding

* An `int32_t` is carried as its 32-bit two's-complement bit pattern, a `Nat`
  below `2^32`; `int32_val` gives the signed value of a pattern.  The C
  operators `&`, `|` act on the pattern; `>>` on a signed operand is gcc's
  arithmetic shift (`int32_sar`).
* A `float` is `CFloat`: NaN or an exact rational.  Every number the decoders
  produce is an integer below `2^14` in magnitude times `0.25` or `0.0625`,
  hence exactly representable in binary32 (`get_thermocouple_temp_exact`,
  `get_internal_temp_exact`); no rounding takes place.
* `int` is the 16-bit `int` of avr-gcc, `uint8_t` wraps modulo 256, a `char`
  is its character code.
* The LCD is driven through `lcd_cmd` and `lcd_data`; the embedding records
  the bytes latched on the bus as a list of `LcdEvent`s.
-/

namespace Thermocouple

/-! ## Machine integers and floats -/

/-- A C `float` restricted to the values this program produces: NaN or an
exactly represented number. -/
inductive CFloat where
  | nan : CFloat
  | num (q : ℚ) : CFloat
deriving DecidableEq

/-- The `isnan` of `math.h`. -/
def isnan : CFloat → Bool
  | CFloat.nan => true
  | CFloat.num _ => false

/-- Signed value of a 32-bit two's-complement bit pattern. -/
def int32_val (bits : Nat) : Int :=
  if bits < 2 ^ 31 then (bits : Int) else (bits : Int) - 2 ^ 32

/-- The operator `>>` on an `int32_t` as gcc compiles it: an arithmetic shift,
the vacated high bits are copies of the sign bit. -/
def int32_sar (bits n : Nat) : Nat :=
  if bits < 2 ^ 31 then bits >>> n
  else (bits >>> n) ||| (0xFFFFFFFF - (0xFFFFFFFF >>> n))

/-! ## The sample decoder (`main.c`, lines 111-126) -/

/-- Decoder of the probe temperature, `main.c` lines 111-118.
```
if (value & 0x7) return NAN;
value >>= 18;
if (value & 0x2000) { value |= 0xFFFFC000; }
return value * 0.25;
``` -/
def get_thermocouple_temp (value : Nat) : CFloat :=
  if value &&& 0x7 ≠ 0 then CFloat.nan
  else
    let value := int32_sar value 18
    let value := if value &&& 0x2000 ≠ 0 then value ||| 0xFFFFC000 else value
    CFloat.num ((int32_val value : ℚ) * 0.25)

/-- Decoder of the reference-junction temperature, `main.c` lines 120-126.
```
value >>= 4;
if (value & 0x800) { value |= 0xFFFFF000; }
return (value & 0xFFF) * 0.0625;
``` -/
def get_internal_temp (value : Nat) : CFloat :=
  let value := int32_sar value 4
  let value := if value &&& 0x800 ≠ 0 then value ||| 0xFFFFF000 else value
  CFloat.num ((int32_val (value &&& 0xFFF) : ℚ) * 0.0625)

/-! ## Reference definitions, following the words of the specification -/

/-- Bit `i` of a raw sample is set. -/
def bit_set (raw i : Nat) : Prop := raw.testBit i = true

instance (raw i : Nat) : Decidable (bit_set raw i) :=
  inferInstanceAs (Decidable (raw.testBit i = true))

/-- Some fault flag among bits [2:0] of the raw sample is set. -/
def fault_bits_set (raw : Nat) : Prop :=
  bit_set raw 0 ∨ bit_set raw 1 ∨ bit_set raw 2

instance (raw : Nat) : Decidable (fault_bits_set raw) :=
  inferInstanceAs (Decidable (bit_set raw 0 ∨ bit_set raw 1 ∨ bit_set raw 2))

/-- Some bit among bits [3:0] of the raw sample is set. -/
def low_nibble_set (raw : Nat) : Prop :=
  bit_set raw 0 ∨ bit_set raw 1 ∨ bit_set raw 2 ∨ bit_set raw 3

instance (raw : Nat) : Decidable (low_nibble_set raw) :=
  inferInstanceAs (Decidable (bit_set raw 0 ∨ bit_set raw 1 ∨ bit_set raw 2 ∨ bit_set raw 3))

/-- The 14-bit field `x` read as a two's-complement integer: when bit 13 is set
all higher bits are ones, so the value is the field minus `2^14`. -/
def sign_extend14 (x : Nat) : Int :=
  if x.testBit 13 then ((x % 2 ^ 14 : Nat) : Int) - 2 ^ 14 else ((x % 2 ^ 14 : Nat) : Int)

/-- The 12-bit field `x` read as a two's-complement integer: when bit 11 is set
all higher bits are ones, so the value is the field minus `2^12`. -/
def sign_extend12 (x : Nat) : Int :=
  if x.testBit 11 then ((x % 2 ^ 12 : Nat) : Int) - 2 ^ 12 else ((x % 2 ^ 12 : Nat) : Int)

/-- The signed value held in bits [31:18] of a raw sample, in arithmetic form. -/
def probe_field (raw : Nat) : Int :=
  if raw / 2 ^ 18 < 2 ^ 13 then ((raw / 2 ^ 18 : Nat) : Int) else ((raw / 2 ^ 18 : Nat) : Int) - 2 ^ 14

/-- The 14-bit two's-complement encoding of a quarter-degree count `n`. -/
def encode14 (n : Int) : Nat := (n % 2 ^ 14).toNat

/-- A raw sample laid out from its parts: the encoded probe field in bits
[31:18], an arbitrary 15-bit pattern `mid` in bits [17:3], bits [2:0] clear. -/
def probe_sample (n : Int) (mid : Nat) : Nat := encode14 n * 2 ^ 18 + mid * 8

/-! ## Integer conversions of the C code -/

/-- Wrap-around of a result into the 16-bit `int` of avr-gcc. -/
def int16_wrap (x : Int) : Int := (x + 2 ^ 15) % 2 ^ 16 - 2 ^ 15

/-- The cast `(int)f` of a number: truncation toward zero.  (The cast of NaN is
not defined by C; the program never evaluates it, the embedding gives 0.) -/
def float_to_int : CFloat → Int
  | CFloat.nan => 0
  | CFloat.num q => Int.tdiv q.num (q.den : Int)

/-! ## The fixed-width formatter (`main.c`, lines 128-146) -/

/-- The assignment `*p = c` into the caller's array `mem`, `p` being the offset
of the pointer from the start of the array. -/
def store (mem : List Nat) (p : Int) (c : Nat) : List Nat :=
  if 0 ≤ p then mem.set p.toNat (c % 256) else mem

/-- The `for` loop of `int_to_string_fixed` with `n` iterations left.
```
if (value > 0) { *buffer-- = (value % 10) + '0'; value /= 10; }
else { *buffer-- = '0'; }
``` -/
def int_to_string_fixed_loop : Nat → List Nat → Int → Int → List Nat
  | 0, mem, _, _ => mem
  | n + 1, mem, p, value =>
    if value > 0 then
      int_to_string_fixed_loop n (store mem p (Int.tmod value 10 + 48).toNat) (p - 1)
        (Int.tdiv value 10)
    else
      int_to_string_fixed_loop n (store mem p 48) (p - 1) value

/-- The part of `int_to_string_fixed` after the sign has been handled.
```
buffer += width;
*buffer-- = '\0';
for (int i = 0; i < width; i++) ...
``` -/
def int_to_string_fixed_tail (mem : List Nat) (p : Int) (value : Int) (width : Nat) : List Nat :=
  int_to_string_fixed_loop width (store mem (p + width) 0) (p + width - 1) value

/-- Formatter `int_to_string_fixed(buffer, value, width)`; `mem` is the caller's
array starting at `buffer`, the result is the array after the call.
```
if (value < 0) { *buffer++ = '-'; value = -value; width--; }
``` -/
def int_to_string_fixed (mem : List Nat) (value : Int) (width : Nat) : List Nat :=
  if value < 0 then
    int_to_string_fixed_tail (store mem 0 45) 1 (int16_wrap (-value)) ((width + 255) % 256)
  else
    int_to_string_fixed_tail mem 0 value width

/-- Character codes of a decimal digit. -/
def is_digit (c : Nat) : Prop := 48 ≤ c ∧ c ≤ 57

instance (c : Nat) : Decidable (is_digit c) :=
  inferInstanceAs (Decidable (48 ≤ c ∧ c ≤ 57))

/-- Reading a string of decimal digits back as a number. -/
def read_digits (cs : List Nat) : Nat :=
  cs.foldl (fun acc c => 10 * acc + (c - 48)) 0

/-- Reading a signed decimal string back as an integer. -/
def read_signed (cs : List Nat) : Int :=
  match cs with
  | [] => 0
  | c :: rest => if c = 45 then -((read_digits rest : Nat) : Int) else ((read_digits (c :: rest) : Nat) : Int)

/-- The `n` low-order decimal digits of `v`, most significant first, as
character codes. -/
def digits_fixed : Nat → Nat → List Nat
  | 0, _ => []
  | n + 1, v => digits_fixed n (v / 10) ++ [v % 10 + 48]

/-- The four characters of a width-4 field for `n`: four digits, or a minus
sign and three digits. -/
def format4 (n : Int) : List Nat :=
  if 0 ≤ n then digits_fixed 4 n.toNat else 45 :: digits_fixed 3 (-n).toNat

/-! ## The display driver (`main.c`, lines 57-84 and 148-170) -/

/-- A byte latched by the display controller: a command (RS = 0) or a
character (RS = 1). -/
inductive LcdEvent where
  | cmd (c : Nat) : LcdEvent
  | data (d : Nat) : LcdEvent
deriving DecidableEq

/-- Bus effect of `lcd_cmd(cmd)`. -/
def lcd_cmd (cmd : Nat) : List LcdEvent := [LcdEvent.cmd cmd]

/-- Bus effect of `lcd_data(data)`. -/
def lcd_data (data : Nat) : List LcdEvent := [LcdEvent.data data]

/-- Bus effect of `lcd_print(str)`: `while (*str) lcd_data(*str++);` on the
bytes found at `str`. -/
def lcd_print : List Nat → List LcdEvent
  | [] => []
  | c :: str => if c ≠ 0 then lcd_data c ++ lcd_print str else []

/-- Bytes of a C string literal, terminating NUL included. -/
def c_string (s : String) : List Nat := s.toList.map Char.toNat ++ [0]

/-- Display routine `display_temperatures_test`; `buffer` is the content of the
local `char buffer[16]` on entry.  The result is what is sent to the display. -/
def display_temperatures_test (buffer : List Nat) (thermocouple_temp internal_temp : CFloat) :
    List LcdEvent :=
  let buffer1 :=
    if ¬ isnan thermocouple_temp then int_to_string_fixed buffer (float_to_int thermocouple_temp) 4
    else buffer
  let line1 :=
    if ¬ isnan thermocouple_temp then
      lcd_print (c_string "Temp:") ++ lcd_print buffer1 ++ lcd_print (c_string "_C")
    else lcd_print (c_string "Temp:Error")
  let buffer2 :=
    if ¬ isnan internal_temp then int_to_string_fixed buffer1 (float_to_int internal_temp) 4
    else buffer1
  let line2 :=
    if ¬ isnan internal_temp then
      lcd_print (c_string "Cold:") ++ lcd_print buffer2 ++ lcd_print (c_string "_C")
    else lcd_print (c_string "Cold:Error")
  lcd_cmd (0x80 ||| 0x00) ++ line1 ++ lcd_cmd (0x80 ||| 0x40) ++ line2

/-- One pass of the loop of `main` on the sample `value` returned by
`read_max31855`. -/
def poll_cycle (buffer : List Nat) (value : Nat) : List LcdEvent :=
  display_temperatures_test buffer (get_thermocouple_temp value) (get_internal_temp value)

/-- The characters at the head of a stream, up to the next command. -/
def data_run : List LcdEvent → List Nat
  | LcdEvent.data d :: rest => d :: data_run rest
  | _ => []

/-- The characters sent right after the first occurrence of command `c`. -/
def chars_after_cmd (c : Nat) : List LcdEvent → List Nat
  | [] => []
  | LcdEvent.cmd c1 :: rest => if c1 = c then data_run rest else chars_after_cmd c rest
  | LcdEvent.data _ :: rest => chars_after_cmd c rest

/-- Character codes of a string. -/
def codes (s : String) : List Nat := s.toList.map Char.toNat

/-! ## The character display

The HD44780-compatible display the program drives holds character cells under
7-bit addresses; line 1 starts at address `0x00` and line 2 at `0x40` (the
addresses `lcd_set_cursor` computes).  Of its commands the model knows those
`main.c` sends: a command with bit 7 set places the cursor, command `0x01`
clears all cells, the mode commands of `lcd_init` change no cell.  A character
is stored under the cursor, which then moves one cell to the right (entry mode
`0x06` of `lcd_init`). -/

/-- State of the display: its cells and its cursor. -/
structure LcdState where
  cells : Nat → Nat
  cursor : Nat

/-- Effect of one latched byte on the display. -/
def lcd_step (s : LcdState) : LcdEvent → LcdState
  | LcdEvent.cmd c =>
    if c &&& 0x80 ≠ 0 then { s with cursor := c &&& 0x7F }
    else if c = 0x01 then { cells := fun _ => 0x20, cursor := 0 }
    else s
  | LcdEvent.data d =>
    { cells := fun a => if a = s.cursor then d else s.cells a, cursor := s.cursor + 1 }

/-- Effect of a stream of latched bytes on the display. -/
def lcd_run (s : LcdState) (evs : List LcdEvent) : LcdState := evs.foldl lcd_step s

/-- The first `n` cells of the first display line, columns `0 .. n-1`. -/
def first_line (s : LcdState) (n : Nat) : List Nat := (List.range n).map s.cells

/-! ## Arithmetic content of the bit operations -/

theorem and7_eq_mod (v : Nat) : v &&& 0x7 = v % 8 :=
  Nat.and_pow_two_sub_one_eq_mod v 3

theorem fault_bits_set_iff (raw : Nat) : fault_bits_set raw ↔ raw % 8 ≠ 0 := by
  unfold fault_bits_set bit_set
  simp only [Nat.testBit_to_div_mod, decide_eq_true_eq]
  omega

theorem and_bit_ne_zero_iff (v i : Nat) : v &&& 2 ^ i ≠ 0 ↔ v / 2 ^ i % 2 = 1 := by
  rw [Nat.and_two_pow, Nat.testBit_to_div_mod]
  have hp : 0 < 2 ^ i := Nat.pos_pow_of_pos i (by decide)
  by_cases h : v / 2 ^ i % 2 = 1
  · simp [h]
  · simp [h]

theorem or_high_eq_add (k a f : Nat) (hf : f < 2 ^ k) : f ||| 2 ^ k * a = f + 2 ^ k * a := by
  rw [Nat.or_comm, ← Nat.mul_add_lt_is_or hf a, Nat.add_comm]

theorem or_high_idem (f m : Nat) : (f ||| m) ||| m = f ||| m := by
  rw [Nat.or_assoc, Nat.or_self]

/-- After `value >>= 18` a non-negative sample holds the 14-bit field. -/
theorem sar18_nonneg (raw : Nat) (h : raw < 2 ^ 31) : int32_sar raw 18 = raw / 2 ^ 18 := by
  unfold int32_sar
  rw [if_pos h, Nat.shiftRight_eq_div_pow]

/-- After `value >>= 18` a negative sample holds the 14-bit field below eighteen
copies of the sign bit. -/
theorem sar18_neg (raw : Nat) (h : ¬ raw < 2 ^ 31) (h32 : raw < 2 ^ 32) :
    int32_sar raw 18 = raw / 2 ^ 18 + 0xFFFFC000 := by
  have hf : raw / 2 ^ 18 < 2 ^ 14 := by omega
  have := or_high_eq_add 14 0x3FFFF (raw / 2 ^ 18) hf
  unfold int32_sar
  rw [if_neg h, Nat.shiftRight_eq_div_pow]
  norm_num at this ⊢
  exact this

theorem sign_extend14_shift (raw : Nat) (h32 : raw < 2 ^ 32) :
    sign_extend14 (raw >>> 18) = probe_field raw := by
  unfold sign_extend14 probe_field
  rw [Nat.shiftRight_eq_div_pow, Nat.testBit_to_div_mod]
  have hf : raw / 2 ^ 18 < 2 ^ 14 := by omega
  rw [Nat.mod_eq_of_lt hf]
  simp only [decide_eq_true_eq]
  by_cases h : raw / 2 ^ 18 < 2 ^ 13
  · have h2 : ¬ (raw / 2 ^ 18 / 2 ^ 13 % 2 = 1) := by omega
    rw [if_neg h2, if_pos h]
  · have h2 : raw / 2 ^ 18 / 2 ^ 13 % 2 = 1 := by omega
    rw [if_pos h2, if_neg h]

/-- The value of the working integer of `get_thermocouple_temp` when it reaches
the multiplication. -/
theorem probe_working_value (raw : Nat) (h32 : raw < 2 ^ 32) :
    int32_val (if int32_sar raw 18 &&& 0x2000 ≠ 0 then int32_sar raw 18 ||| 0xFFFFC000
      else int32_sar raw 18) = probe_field raw := by
  by_cases h : raw < 2 ^ 31
  · rw [sar18_nonneg raw h]
    have hlt : raw / 2 ^ 18 < 2 ^ 13 := by omega
    have hno : ¬ (raw / 2 ^ 18 &&& 0x2000 ≠ 0) := by
      intro hh
      have := (and_bit_ne_zero_iff (raw / 2 ^ 18) 13).mp hh
      omega
    rw [if_neg hno]
    unfold int32_val probe_field
    have hv : raw / 2 ^ 18 < 2 ^ 31 := by omega
    rw [if_pos hv, if_pos hlt]
  · have hs := sar18_neg raw h h32
    have hge : ¬ raw / 2 ^ 18 < 2 ^ 13 := by omega
    have hf : raw / 2 ^ 18 < 2 ^ 14 := by omega
    have hor : int32_sar raw 18 = raw / 2 ^ 18 ||| 0xFFFFC000 := by
      have := or_high_eq_add 14 0x3FFFF (raw / 2 ^ 18) hf
      norm_num at this hs ⊢
      rw [hs, this]
    have hidem : int32_sar raw 18 ||| 0xFFFFC000 = int32_sar raw 18 := by
      rw [hor, or_high_idem]
    have hval : int32_val (int32_sar raw 18) = probe_field raw := by
      rw [hs]
      unfold int32_val probe_field
      have hv : ¬ raw / 2 ^ 18 + 0xFFFFC000 < 2 ^ 31 := by omega
      rw [if_neg hv, if_neg hge]
      push_cast
      ring
    split
    · rw [hidem, hval]
    · exact hval

/-- Arithmetic form of the probe decoder on a sample without fault flags. -/
theorem get_thermocouple_temp_eq (raw : Nat) (h32 : raw < 2 ^ 32) (h8 : raw % 8 = 0) :
    get_thermocouple_temp raw = CFloat.num ((probe_field raw : ℚ) * 0.25) := by
  unfold get_thermocouple_temp
  have h7 : ¬ (raw &&& 0x7 ≠ 0) := by rw [and7_eq_mod]; omega
  rw [if_neg h7]
  simp only []
  rw [probe_working_value raw h32]

/-- Arithmetic form of the probe decoder on a sample with a fault flag. -/
theorem get_thermocouple_temp_fault (raw : Nat) (h8 : raw % 8 ≠ 0) :
    get_thermocouple_temp raw = CFloat.nan := by
  unfold get_thermocouple_temp
  have h7 : raw &&& 0x7 ≠ 0 := by rw [and7_eq_mod]; exact h8
  rw [if_pos h7]

theorem probe_field_bounds (raw : Nat) (h32 : raw < 2 ^ 32) :
    -8192 ≤ probe_field raw ∧ probe_field raw ≤ 8191 := by
  unfold probe_field
  have hf : raw / 2 ^ 18 < 2 ^ 14 := by omega
  split <;> omega

theorem or_mask_low (v m : Nat) (hm : m &&& 0xFFF = 0) : (v ||| m) &&& 0xFFF = v % 4096 := by
  rw [Nat.and_distrib_right, hm, Nat.or_zero]
  exact Nat.and_pow_two_sub_one_eq_mod v 12

/-- The low twelve bits of the working integer of `get_internal_temp` after
`value >>= 4` are bits [15:4] of the sample, whatever its sign. -/
theorem sar4_low (raw : Nat) : int32_sar raw 4 % 4096 = raw / 16 % 4096 := by
  unfold int32_sar
  rw [Nat.shiftRight_eq_div_pow]
  split
  · rfl
  · have h1 := or_mask_low (raw / 2 ^ 4) (0xFFFFFFFF - (0xFFFFFFFF >>> 4)) (by decide)
    have h2 := Nat.and_pow_two_sub_one_eq_mod (raw / 2 ^ 4 ||| (0xFFFFFFFF - (0xFFFFFFFF >>> 4))) 12
    exact h2.symm.trans h1

/-- The masked working integer of `get_internal_temp`: the sign extension is
undone by the mask `0xFFF`. -/
theorem internal_working_value (raw : Nat) :
    (if int32_sar raw 4 &&& 0x800 ≠ 0 then int32_sar raw 4 ||| 0xFFFFF000
      else int32_sar raw 4) &&& 0xFFF = raw / 16 % 4096 := by
  split
  · rw [or_mask_low _ _ (by decide), sar4_low]
  · have := Nat.and_pow_two_sub_one_eq_mod (int32_sar raw 4) 12
    norm_num at this
    rw [this]
    exact sar4_low raw

/-- Arithmetic form of the reference decoder. -/
theorem get_internal_temp_eq (raw : Nat) :
    get_internal_temp raw = CFloat.num (((raw / 16 % 4096 : Nat) : ℚ) * 0.0625) := by
  unfold get_internal_temp
  simp only []
  rw [internal_working_value raw]
  unfold int32_val
  have h : raw / 16 % 4096 < 2 ^ 31 := by omega
  rw [if_pos h]
  norm_cast

/-- Every number the probe decoder returns is a quarter of an integer of at
most fourteen bits, a value binary32 represents exactly. -/
theorem get_thermocouple_temp_exact (raw : Nat) (h32 : raw < 2 ^ 32) (q : ℚ)
    (h : get_thermocouple_temp raw = CFloat.num q) :
    ∃ m : Int, -8192 ≤ m ∧ m ≤ 8191 ∧ q = (m : ℚ) * 0.25 := by
  by_cases h8 : raw % 8 = 0
  · rw [get_thermocouple_temp_eq raw h32 h8] at h
    injection h with h
    exact ⟨probe_field raw, (probe_field_bounds raw h32).1, (probe_field_bounds raw h32).2, h.symm⟩
  · rw [get_thermocouple_temp_fault raw h8] at h
    exact CFloat.noConfusion h

/-- Every number the reference decoder returns is a sixteenth of an integer of
at most twelve bits, a value binary32 represents exactly. -/
theorem get_internal_temp_exact (raw : Nat) :
    ∃ m : Nat, m ≤ 4095 ∧ get_internal_temp raw = CFloat.num ((m : ℚ) * 0.0625) :=
  ⟨raw / 16 % 4096, by omega, get_internal_temp_eq raw⟩

theorem probe_sample_field (n : Int) (mid : Nat) (hn1 : -8192 ≤ n) (hn2 : n ≤ 8191)
    (hmid : mid < 2 ^ 15) :
    probe_sample n mid < 2 ^ 32 ∧ probe_sample n mid % 8 = 0 ∧
      probe_sample n mid / 2 ^ 18 = encode14 n ∧ probe_field (probe_sample n mid) = n := by
  have he : ((encode14 n : Nat) : Int) = n % 2 ^ 14 := by
    unfold encode14
    exact Int.toNat_of_nonneg (Int.emod_nonneg n (by decide))
  have hdiv : probe_sample n mid / 2 ^ 18 = encode14 n := by
    unfold probe_sample
    omega
  refine ⟨?_, ?_, hdiv, ?_⟩
  · unfold probe_sample
    omega
  · unfold probe_sample
    omega
  · unfold probe_field
    rw [hdiv]
    split <;> omega

/-! ## The decoder: claims -/

/-- C1. A raw sample with at least one of bits [2:0] set is decoded by
`get_thermocouple_temp` to NaN, the fault marker, and to no number, whatever
its other bits are: the flags are examined on the sample as received. -/
theorem fault_flags_give_nan (raw : Nat) (_h32 : raw < 2 ^ 32) (hf : fault_bits_set raw) :
    get_thermocouple_temp raw = CFloat.nan ∧ isnan (get_thermocouple_temp raw) = true ∧
      ∀ q, get_thermocouple_temp raw ≠ CFloat.num q := by
  have h := get_thermocouple_temp_fault raw ((fault_bits_set_iff raw).mp hf)
  rw [h]
  exact ⟨rfl, rfl, fun q hq => CFloat.noConfusion hq⟩

theorem fault_flags_give_nan_witness :
    0x19000005 < 2 ^ 32 ∧ fault_bits_set 0x19000005 ∧
    get_thermocouple_temp 0x19000005 = CFloat.nan ∧ isnan (get_thermocouple_temp 0x19000005) = true ∧
      ∀ q, get_thermocouple_temp 0x19000005 ≠ CFloat.num q :=
  ⟨by decide, by decide, fault_flags_give_nan 0x19000005 (by decide) (by decide)⟩

/-- C2. A raw sample with bits [2:0] clear is decoded by `get_thermocouple_temp`
to the number `sign_extend14 (raw >> 18) * 0.25`; the samples `0x00000000` and
`0x19000000` give `0.00` and `400.00`. -/
theorem probe_decode_sign_extend14 (raw : Nat) (h32 : raw < 2 ^ 32) (hc : ¬ fault_bits_set raw) :
    get_thermocouple_temp raw = CFloat.num ((sign_extend14 (raw >>> 18) : ℚ) * 0.25) ∧
      get_thermocouple_temp 0x00000000 = CFloat.num 0 ∧
      get_thermocouple_temp 0x19000000 = CFloat.num 400 := by
  have key : ∀ r : Nat, r < 2 ^ 32 → ¬ fault_bits_set r →
      get_thermocouple_temp r = CFloat.num ((sign_extend14 (r >>> 18) : ℚ) * 0.25) := by
    intro r hr hrc
    have h8 : r % 8 = 0 := by
      by_contra hne
      exact hrc ((fault_bits_set_iff r).mpr hne)
    rw [get_thermocouple_temp_eq r hr h8, sign_extend14_shift r hr]
  refine ⟨key raw h32 hc, ?_, ?_⟩
  · rw [key 0 (by decide) (by decide)]
    have : sign_extend14 (0 >>> 18) = 0 := by decide
    rw [this]
    norm_num
  · rw [key 0x19000000 (by decide) (by decide)]
    have : sign_extend14 (0x19000000 >>> 18) = 1600 := by decide
    rw [this]
    norm_num

theorem probe_decode_sign_extend14_witness :
    0xFFFC0000 < 2 ^ 32 ∧ ¬ fault_bits_set 0xFFFC0000 ∧
    get_thermocouple_temp 0xFFFC0000 = CFloat.num ((sign_extend14 (0xFFFC0000 >>> 18) : ℚ) * 0.25) ∧
      get_thermocouple_temp 0x00000000 = CFloat.num 0 ∧
      get_thermocouple_temp 0x19000000 = CFloat.num 400 :=
  ⟨by decide, by decide, probe_decode_sign_extend14 0xFFFC0000 (by decide) (by decide)⟩

/-- C3 (defect of the code). On the sample `0x0000FFF0`, whose reference field
is `0xFFF`, the claimed value `sign_extend12 (raw >> 4) * 0.0625` is `-0.0625`,
but `get_internal_temp` returns `255.9375`: the final mask `& 0xFFF` removes
the sign extension made two lines above it. -/
theorem get_internal_temp_loses_sign :
    bit_set 0x0000FFF0 15 ∧
      CFloat.num ((sign_extend12 (0x0000FFF0 >>> 4) : ℚ) * 0.0625) = CFloat.num (-0.0625) ∧
      get_internal_temp 0x0000FFF0 = CFloat.num 255.9375 ∧
      get_internal_temp 0x0000FFF0 ≠ CFloat.num ((sign_extend12 (0x0000FFF0 >>> 4) : ℚ) * 0.0625) := by
  have hs : sign_extend12 (0x0000FFF0 >>> 4) = -1 := by decide
  have hg : get_internal_temp 0x0000FFF0 = CFloat.num 255.9375 := by
    rw [get_internal_temp_eq]
    norm_num
  refine ⟨by decide, ?_, hg, ?_⟩
  · rw [hs]
    norm_num
  · rw [hg, hs]
    intro h
    injection h with h
    norm_num at h

/-- C4 (as stated, refuted). The sample `0x00000008` has bit 3 set, so one of
bits [3:0] is non-zero, and `get_thermocouple_temp` returns the number `0.00`,
not the fault marker. -/
theorem bit3_alone_is_no_fault :
    0x00000008 < 2 ^ 32 ∧ low_nibble_set 0x00000008 ∧
      get_thermocouple_temp 0x00000008 = CFloat.num 0 ∧
      get_thermocouple_temp 0x00000008 ≠ CFloat.nan := by
  have hg : get_thermocouple_temp 0x00000008 = CFloat.num 0 := by
    rw [get_thermocouple_temp_eq 8 (by decide) (by decide)]
    have : probe_field 8 = 0 := by decide
    rw [this]
    norm_num
  refine ⟨by decide, by decide, hg, ?_⟩
  rw [hg]
  exact fun h => CFloat.noConfusion h

/-- C4 (amended). Among the samples with some bit of [3:0] set, those with a
bit of [2:0] set are decoded by `get_thermocouple_temp` to the fault marker,
and those with only bit 3 set are decoded to a number, the 14-bit field times
`0.25`: bit 3 is not examined. -/
theorem fault_flags_are_low_three_bits (raw : Nat) (h32 : raw < 2 ^ 32)
    (h4 : low_nibble_set raw) :
    (fault_bits_set raw → get_thermocouple_temp raw = CFloat.nan) ∧
      (¬ fault_bits_set raw → bit_set raw 3 ∧
        get_thermocouple_temp raw = CFloat.num ((sign_extend14 (raw >>> 18) : ℚ) * 0.25)) := by
  constructor
  · intro hf
    exact get_thermocouple_temp_fault raw ((fault_bits_set_iff raw).mp hf)
  · intro hc
    have h8 : raw % 8 = 0 := by
      by_contra hne
      exact hc ((fault_bits_set_iff raw).mpr hne)
    constructor
    · unfold low_nibble_set at h4
      unfold fault_bits_set at hc
      tauto
    · rw [get_thermocouple_temp_eq raw h32 h8, sign_extend14_shift raw h32]

theorem fault_flags_are_low_three_bits_witness :
    0x00000008 < 2 ^ 32 ∧ low_nibble_set 0x00000008 ∧
      (fault_bits_set 0x00000008 → get_thermocouple_temp 0x00000008 = CFloat.nan) ∧
      (¬ fault_bits_set 0x00000008 → bit_set 0x00000008 3 ∧
        get_thermocouple_temp 0x00000008 =
          CFloat.num ((sign_extend14 (0x00000008 >>> 18) : ℚ) * 0.25)) :=
  ⟨by decide, by decide, fault_flags_are_low_three_bits 0x00000008 (by decide) (by decide)⟩

/-- C5. For every raw sample, fault flags set or not, `get_internal_temp`
returns a number and never NaN: the sign-extended field masked back to twelve
bits, that is `((raw >> 4) mod 4096) * 0.0625`.  The result lies between `0`
and `255.9375`, depends only on bits [15:4], and is `0.00` on `0x00000007`. -/
theorem get_internal_temp_masked (raw : Nat) (_h32 : raw < 2 ^ 32) :
    get_internal_temp raw = CFloat.num ((((raw >>> 4) % 4096 : Nat) : ℚ) * 0.0625) ∧
      get_internal_temp raw =
        CFloat.num (((sign_extend12 (raw >>> 4) % (4096 : Int) : Int) : ℚ) * 0.0625) ∧
      isnan (get_internal_temp raw) = false ∧
      (∃ q, get_internal_temp raw = CFloat.num q ∧ 0 ≤ q ∧ q ≤ 255.9375) ∧
      (∀ raw2, raw2 < 2 ^ 32 → (raw2 >>> 4) % 4096 = (raw >>> 4) % 4096 →
        get_internal_temp raw2 = get_internal_temp raw) ∧
      get_internal_temp 0x00000007 = CFloat.num 0 := by
  have hsh : ∀ r : Nat, r >>> 4 = r / 16 := fun r => Nat.shiftRight_eq_div_pow r 4
  have hmask : sign_extend12 (raw >>> 4) % (4096 : Int) = (((raw >>> 4) % 4096 : Nat) : Int) := by
    unfold sign_extend12
    split <;> omega
  have hk : (((raw / 16 % 4096 : Nat) : ℚ)) ≤ 4095 := by
    have : raw / 16 % 4096 ≤ 4095 := by omega
    exact_mod_cast this
  refine ⟨?_, ?_, ?_, ?_, ?_, ?_⟩
  · rw [get_internal_temp_eq, hsh]
  · rw [get_internal_temp_eq, hmask, hsh]
    norm_cast
  · rw [get_internal_temp_eq]
    rfl
  · refine ⟨_, get_internal_temp_eq raw, ?_, ?_⟩
    · positivity
    · norm_num
      linarith
  · intro raw2 _ hsame
    rw [hsh, hsh] at hsame
    rw [get_internal_temp_eq, get_internal_temp_eq, hsame]
  · rw [get_internal_temp_eq]
    norm_num

theorem get_internal_temp_masked_witness :
    0x8000FFF7 < 2 ^ 32 ∧
      get_internal_temp 0x8000FFF7 = CFloat.num ((((0x8000FFF7 >>> 4) % 4096 : Nat) : ℚ) * 0.0625) :=
  ⟨by decide, (get_internal_temp_masked 0x8000FFF7 (by decide)).1⟩

/-- C6. Probe round trip: for a quarter-degree count `n` between `-8192` and
`8191` and any bits [17:3], the sample holding the 14-bit two's-complement
encoding of `n` in bits [31:18], with bits [2:0] clear, is decoded by
`get_thermocouple_temp` to exactly `n * 0.25`; decoding is therefore injective
on the probe field. -/
theorem probe_round_trip (n : Int) (mid : Nat) (hn1 : -8192 ≤ n) (hn2 : n ≤ 8191)
    (hmid : mid < 2 ^ 15) :
    probe_sample n mid < 2 ^ 32 ∧ ¬ fault_bits_set (probe_sample n mid) ∧
      probe_sample n mid >>> 18 = encode14 n ∧ (probe_sample n mid >>> 3) % 2 ^ 15 = mid ∧
      get_thermocouple_temp (probe_sample n mid) = CFloat.num ((n : ℚ) * 0.25) ∧
      (∀ (n2 : Int) (mid2 : Nat), -8192 ≤ n2 → n2 ≤ 8191 → mid2 < 2 ^ 15 →
        get_thermocouple_temp (probe_sample n2 mid2) = get_thermocouple_temp (probe_sample n mid) →
        n2 = n) := by
  have key : ∀ (k : Int) (m : Nat), -8192 ≤ k → k ≤ 8191 → m < 2 ^ 15 →
      get_thermocouple_temp (probe_sample k m) = CFloat.num ((k : ℚ) * 0.25) := by
    intro k m hk1 hk2 hm
    obtain ⟨h32, h8, _, hfield⟩ := probe_sample_field k m hk1 hk2 hm
    rw [get_thermocouple_temp_eq _ h32 h8, hfield]
  obtain ⟨h32, h8, hdiv, _⟩ := probe_sample_field n mid hn1 hn2 hmid
  refine ⟨h32, ?_, ?_, ?_, key n mid hn1 hn2 hmid, ?_⟩
  · intro hf
    exact (fault_bits_set_iff _).mp hf h8
  · rw [Nat.shiftRight_eq_div_pow]
    exact hdiv
  · rw [Nat.shiftRight_eq_div_pow]
    have he : encode14 n < 2 ^ 14 := by
      unfold encode14
      omega
    unfold probe_sample
    omega
  · intro n2 mid2 h1 h2 hm2 heq
    rw [key n2 mid2 h1 h2 hm2, key n mid hn1 hn2 hmid] at heq
    injection heq with heq
    have h4 : ((n2 : ℚ)) = (n : ℚ) := by
      have hne : (0.25 : ℚ) ≠ 0 := by norm_num
      exact mul_right_cancel₀ hne heq
    exact_mod_cast h4

theorem probe_round_trip_witness :
    (-8192 : Int) ≤ -1 ∧ (-1 : Int) ≤ 8191 ∧ 0x7FFF < 2 ^ 15 ∧
      get_thermocouple_temp (probe_sample (-1) 0x7FFF) = CFloat.num (((-1 : Int) : ℚ) * 0.25) :=
  ⟨by decide, by decide, by decide,
    (probe_round_trip (-1) 0x7FFF (by decide) (by decide) (by decide)).2.2.2.2.1⟩


/-! ## The formatter: lemmas -/

theorem store_at (pre post : List Nat) (x c : Nat) (hc : c < 256) :
    store (pre ++ x :: post) (pre.length : Int) c = pre ++ c :: post := by
  unfold store
  rw [if_pos (Int.natCast_nonneg _), Int.toNat_natCast, Nat.mod_eq_of_lt hc,
    List.set_append_right _ _ (Nat.le_refl _), Nat.sub_self, List.set_cons_zero]

theorem digits_fixed_length (n v : Nat) : (digits_fixed n v).length = n := by
  induction n generalizing v with
  | zero => rfl
  | succ n ih => simp [digits_fixed, ih]

theorem digits_fixed_is_digit (n v c : Nat) (hc : c ∈ digits_fixed n v) : is_digit c := by
  induction n generalizing v with
  | zero => simp [digits_fixed] at hc
  | succ n ih =>
    simp only [digits_fixed, List.mem_append, List.mem_singleton] at hc
    rcases hc with hc | hc
    · exact ih _ hc
    · unfold is_digit
      omega

theorem read_digits_snoc (cs : List Nat) (c : Nat) :
    read_digits (cs ++ [c]) = 10 * read_digits cs + (c - 48) := by
  simp [read_digits, List.foldl_append]

theorem read_digits_fixed (n v : Nat) : read_digits (digits_fixed n v) = v % 10 ^ n := by
  induction n generalizing v with
  | zero => simp [digits_fixed, read_digits, Nat.mod_one]
  | succ n ih =>
    rw [digits_fixed, read_digits_snoc, ih, pow_succ', Nat.mod_mul]
    omega

/-- The loop writes the `n` low-order digits of the value, units last, into the
`n` cells that end under the pointer. -/
theorem int_to_string_fixed_loop_spec (n : Nat) (pre mid post : List Nat) (v : Nat)
    (hmid : mid.length = n) :
    int_to_string_fixed_loop n (pre ++ mid ++ post) (((pre.length + n : Nat) : Int) - 1) (v : Int)
      = pre ++ digits_fixed n v ++ post := by
  induction n generalizing mid post v with
  | zero =>
    have : mid = [] := List.length_eq_zero.mp hmid
    subst this
    simp [int_to_string_fixed_loop, digits_fixed]
  | succ n ih =>
    obtain ⟨mid1, x, rfl⟩ : ∃ mid1 x, mid = mid1 ++ [x] := by
      rcases List.eq_nil_or_concat mid with h | ⟨l, a, h⟩
      · subst h; simp at hmid
      · exact ⟨l, a, by simpa using h⟩
    have hlen : mid1.length = n := by simpa using hmid
    have hp : (((pre.length + (n + 1) : Nat) : Int) - 1) = (((pre ++ mid1).length : Nat) : Int) := by
      rw [List.length_append, hlen]
      push_cast
      ring
    have hp2 : (((pre ++ mid1).length : Nat) : Int) - 1 = (((pre.length + n : Nat) : Int) - 1) := by
      rw [List.length_append, hlen]
    have hmem : pre ++ (mid1 ++ [x]) ++ post = (pre ++ mid1) ++ x :: post := by simp
    rw [hmem, hp]
    unfold int_to_string_fixed_loop
    by_cases hv : (v : Int) > 0
    · rw [if_pos hv]
      have hd : (Int.tmod (v : Int) 10 + 48).toNat = v % 10 + 48 := by
        have h : Int.tmod (v : Int) 10 = ((v % 10 : Nat) : Int) := (Int.ofNat_tmod v 10).symm
        rw [h]
        omega
      have hq : Int.tdiv (v : Int) 10 = ((v / 10 : Nat) : Int) := (Int.ofNat_tdiv v 10).symm
      rw [hd, hq, store_at _ _ _ _ (by omega), hp2]
      have := ih mid1 ((v % 10 + 48) :: post) (v / 10) hlen
      rw [List.append_assoc] at this ⊢
      rw [this, digits_fixed]
      simp
    · rw [if_neg hv]
      have hv0 : v = 0 := by omega
      subst hv0
      rw [store_at _ _ _ _ (by decide), hp2]
      have := ih mid1 (48 :: post) 0 hlen
      rw [List.append_assoc] at this ⊢
      simp only [Nat.cast_zero] at this ⊢
      rw [this, digits_fixed]
      simp

/-- The part after the sign writes the terminating NUL behind `width` cells and
fills the cells with digits. -/
theorem int_to_string_fixed_tail_spec (pre mid post : List Nat) (z v : Nat) :
    int_to_string_fixed_tail (pre ++ mid ++ z :: post) (pre.length : Int) (v : Int) mid.length
      = pre ++ digits_fixed mid.length v ++ 0 :: post := by
  unfold int_to_string_fixed_tail
  have hp : ((pre.length : Int) + (mid.length : Int)) = (((pre ++ mid).length : Nat) : Int) := by
    rw [List.length_append]
    push_cast
    rfl
  rw [hp, store_at _ _ _ _ (by decide), List.length_append]
  exact int_to_string_fixed_loop_spec mid.length pre mid (0 :: post) v rfl

/-- Splitting an array at cell `w`. -/
theorem split_at_cell (mem : List Nat) (w : Nat) (h : w < mem.length) :
    ∃ z, mem = mem.take w ++ z :: mem.drop (w + 1) ∧ (mem.take w).length = w := by
  refine ⟨mem[w], ?_, ?_⟩
  · rw [← List.drop_eq_getElem_cons h]
    exact (List.take_append_drop w mem).symm
  · rw [List.length_take]
    omega

/-- Result of the formatter for a value that is not negative. -/
theorem int_to_string_fixed_nonneg (mem : List Nat) (value : Int) (w : Nat)
    (hv : 0 ≤ value) (hlen : w < mem.length) :
    int_to_string_fixed mem value w = digits_fixed w value.toNat ++ 0 :: mem.drop (w + 1) := by
  obtain ⟨z, hmem, htake⟩ := split_at_cell mem w hlen
  unfold int_to_string_fixed
  rw [if_neg (by omega)]
  have hval : value = ((value.toNat : Nat) : Int) := (Int.toNat_of_nonneg hv).symm
  have := int_to_string_fixed_tail_spec [] (mem.take w) (mem.drop (w + 1)) z value.toNat
  simp only [List.nil_append, List.length_nil, Nat.cast_zero] at this
  rw [htake, ← hmem, ← hval] at this
  exact this

/-- Result of the formatter for a negative value other than the minimum `int`. -/
theorem int_to_string_fixed_neg (mem : List Nat) (value : Int) (w : Nat)
    (hv : value < 0) (hmin : -32768 < value) (hw : 1 ≤ w) (hw8 : w ≤ 255)
    (hlen : w < mem.length) :
    int_to_string_fixed mem value w
      = 45 :: digits_fixed (w - 1) (-value).toNat ++ 0 :: mem.drop (w + 1) := by
  obtain ⟨z, hmem, htake⟩ := split_at_cell mem w hlen
  unfold int_to_string_fixed
  rw [if_pos hv]
  have hwrap : int16_wrap (-value) = (((-value).toNat : Nat) : Int) := by
    unfold int16_wrap
    omega
  have hwidth : (w + 255) % 256 = w - 1 := by omega
  obtain ⟨y, mid, hy⟩ : ∃ y mid, mem.take w = y :: mid := by
    cases hcase : mem.take w with
    | nil => rw [hcase] at htake; simp at htake; omega
    | cons y mid => exact ⟨y, mid, rfl⟩
  have hmidlen : mid.length = w - 1 := by
    rw [hy] at htake
    simp at htake
    omega
  have hst : store mem 0 45 = [45] ++ mid ++ z :: mem.drop (w + 1) := by
    have h0 := store_at [] (mid ++ z :: mem.drop (w + 1)) y 45 (by decide)
    have e : mem = y :: (mid ++ z :: mem.drop (w + 1)) := by
      rw [← List.cons_append, ← hy]
      exact hmem
    calc store mem 0 45 = store (y :: (mid ++ z :: mem.drop (w + 1))) 0 45 :=
          congrArg (fun m => store m 0 45) e
      _ = [45] ++ mid ++ z :: mem.drop (w + 1) := by simpa using h0
  rw [hst, hwrap, hwidth, ← hmidlen]
  have := int_to_string_fixed_tail_spec [45] mid (mem.drop (w + 1)) z (-value).toNat
  simpa using this

/-! ## The formatter: claim -/

/-- C8. `int_to_string_fixed` formats an `int` other than the minimum one in a
field of width `w ≥ 1`: it writes exactly `w` characters and a terminating NUL
and leaves the rest of the array alone.  For `value ≥ 0` the characters are `w`
decimal digits that read back as `value` when `value < 10^w`; for `value < 0`
they are `'-'` and `w-1` decimal digits that read back as `|value|` when
`|value| < 10^(w-1)`.  With width 4: `25`, `-7`, `0` give `"0025"`, `"-007"`,
`"0000"`. -/
theorem int_to_string_fixed_format (mem : List Nat) (value : Int) (w : Nat)
    (hw : 1 ≤ w) (hw8 : w ≤ 255) (hmin : -32768 < value) (hmax : value ≤ 32767)
    (hlen : w < mem.length) :
    (∃ chars, chars.length = w ∧
      int_to_string_fixed mem value w = chars ++ 0 :: mem.drop (w + 1) ∧
      (0 ≤ value → (∀ c ∈ chars, is_digit c) ∧
        ((read_digits chars : Nat) : Int) = value % 10 ^ w ∧
        (value < 10 ^ w → ((read_digits chars : Nat) : Int) = value)) ∧
      (value < 0 → ∃ ds, chars = 45 :: ds ∧ ds.length = w - 1 ∧ (∀ c ∈ ds, is_digit c) ∧
        ((read_digits ds : Nat) : Int) = (-value) % 10 ^ (w - 1) ∧
        (-value < 10 ^ (w - 1) → ((read_digits ds : Nat) : Int) = -value))) ∧
      int_to_string_fixed (List.replicate 16 0xFF) 25 4 = codes "0025" ++ 0 :: List.replicate 11 0xFF ∧
      int_to_string_fixed (List.replicate 16 0xFF) (-7) 4 = codes "-007" ++ 0 :: List.replicate 11 0xFF ∧
      int_to_string_fixed (List.replicate 16 0xFF) 0 4 = codes "0000" ++ 0 :: List.replicate 11 0xFF := by
  refine ⟨?_, by decide, by decide, by decide⟩
  by_cases hv : 0 ≤ value
  · refine ⟨digits_fixed w value.toNat, digits_fixed_length _ _,
      int_to_string_fixed_nonneg mem value w hv hlen, ?_, ?_⟩
    · intro _
      have hrd : ((read_digits (digits_fixed w value.toNat) : Nat) : Int) = value % 10 ^ w := by
        rw [read_digits_fixed]
        push_cast
        rw [Int.toNat_of_nonneg hv]
      refine ⟨fun c hc => digits_fixed_is_digit _ _ c hc, hrd, ?_⟩
      intro hlt
      rw [hrd]
      exact Int.emod_eq_of_lt hv hlt
    · intro hneg
      omega
  · have hneg : value < 0 := by omega
    have hpos : 0 ≤ -value := by omega
    refine ⟨45 :: digits_fixed (w - 1) (-value).toNat, ?_,
      int_to_string_fixed_neg mem value w hneg hmin hw hw8 hlen, ?_, ?_⟩
    · rw [List.length_cons, digits_fixed_length]
      omega
    · intro h0
      omega
    · intro _
      have hrd : ((read_digits (digits_fixed (w - 1) (-value).toNat) : Nat) : Int)
          = (-value) % 10 ^ (w - 1) := by
        rw [read_digits_fixed]
        push_cast
        rw [Int.toNat_of_nonneg hpos]
      refine ⟨_, rfl, digits_fixed_length _ _, fun c hc => digits_fixed_is_digit _ _ c hc, hrd, ?_⟩
      intro hlt
      rw [hrd]
      exact Int.emod_eq_of_lt hpos hlt

theorem int_to_string_fixed_format_witness :
    (1 ≤ 4 ∧ 4 ≤ 255 ∧ (-32768 : Int) < -2048 ∧ (-2048 : Int) ≤ 32767 ∧
      4 < (List.replicate 16 0xFF).length) ∧
    ∃ chars, chars.length = 4 ∧
      int_to_string_fixed (List.replicate 16 0xFF) (-2048) 4
        = chars ++ 0 :: (List.replicate 16 0xFF).drop (4 + 1) :=
  ⟨by decide,
    (int_to_string_fixed_format (List.replicate 16 0xFF) (-2048) 4 (by decide) (by decide)
      (by decide) (by decide) (by decide)).1.imp fun _ h => ⟨h.1, h.2.1⟩⟩

/-! ## The display: lemmas -/

theorem lcd_print_is_data (str : List Nat) : ∃ cs : List Nat, lcd_print str = cs.map LcdEvent.data := by
  induction str with
  | nil => exact ⟨[], rfl⟩
  | cons c str ih =>
    obtain ⟨cs, hcs⟩ := ih
    by_cases hc : c ≠ 0
    · exact ⟨c :: cs, by simp [lcd_print, lcd_data, hc, hcs]⟩
    · exact ⟨[], by simp [lcd_print, hc]⟩

/-- Printing stops at the terminating NUL. -/
theorem lcd_print_terminated (cs rest : List Nat) (h : ∀ c ∈ cs, c ≠ 0) :
    lcd_print (cs ++ 0 :: rest) = cs.map LcdEvent.data := by
  induction cs with
  | nil => simp [lcd_print]
  | cons c cs ih =>
    have hc : c ≠ 0 := h c (List.mem_cons_self _ _)
    have hrest : ∀ d ∈ cs, d ≠ 0 := fun d hd => h d (List.mem_cons_of_mem _ hd)
    simp [lcd_print, lcd_data, hc, ih hrest]

theorem data_run_chars (cs : List Nat) (c : Nat) (rest : List LcdEvent) :
    data_run (cs.map LcdEvent.data ++ LcdEvent.cmd c :: rest) = cs := by
  induction cs with
  | nil => simp [data_run]
  | cons d cs ih => simp [data_run, ih]

theorem format4_length (n : Int) : (format4 n).length = 4 := by
  unfold format4
  split <;> simp [digits_fixed_length]

theorem format4_chars (n : Int) (c : Nat) (hc : c ∈ format4 n) : is_digit c ∨ c = 45 := by
  unfold format4 at hc
  split at hc
  · exact Or.inl (digits_fixed_is_digit _ _ c hc)
  · rcases List.mem_cons.mp hc with h | h
    · exact Or.inr h
    · exact Or.inl (digits_fixed_is_digit _ _ c h)

theorem format4_ne_zero (n : Int) (c : Nat) (hc : c ∈ format4 n) : c ≠ 0 := by
  rcases format4_chars n c hc with h | h
  · unfold is_digit at h
    omega
  · omega

/-- With width 4 the formatter leaves `format4 n` and a NUL at the head of the
array. -/
theorem int_to_string_fixed_four (mem : List Nat) (n : Int) (hmin : -32768 < n)
    (hlen : 4 < mem.length) :
    int_to_string_fixed mem n 4 = format4 n ++ 0 :: mem.drop 5 := by
  unfold format4
  by_cases hn : 0 ≤ n
  · rw [if_pos hn]
    exact int_to_string_fixed_nonneg mem n 4 hn hlen
  · rw [if_neg hn]
    exact int_to_string_fixed_neg mem n 4 (by omega) hmin (by decide) (by decide) hlen

/-- What the display routine sends when the probe value is a number. -/
theorem display_numeric (buffer : List Nat) (q : ℚ) (internal_temp : CFloat)
    (hmin : -32768 < float_to_int (CFloat.num q)) (hlen : 4 < buffer.length) :
    ∃ line2 : List Nat,
      display_temperatures_test buffer (CFloat.num q) internal_temp =
        LcdEvent.cmd 0x80 ::
          ((codes "Temp:" ++ format4 (float_to_int (CFloat.num q)) ++ codes "_C").map LcdEvent.data
            ++ LcdEvent.cmd 0xC0 :: line2.map LcdEvent.data) := by
  have hfmt := int_to_string_fixed_four buffer (float_to_int (CFloat.num q)) hmin hlen
  have hp := lcd_print_terminated (format4 (float_to_int (CFloat.num q))) (buffer.drop 5)
    (format4_ne_zero _)
  have h1 : lcd_print (c_string "Temp:") = (codes "Temp:").map LcdEvent.data := by decide
  have h2 : lcd_print (c_string "_C") = (codes "_C").map LcdEvent.data := by decide
  have h3 : lcd_print (c_string "Cold:") = (codes "Cold:").map LcdEvent.data := by decide
  cases internal_temp with
  | nan =>
    refine ⟨codes "Cold:Error", ?_⟩
    have h4 : lcd_print (c_string "Cold:Error") = (codes "Cold:Error").map LcdEvent.data := by decide
    simp only [display_temperatures_test, isnan, lcd_cmd, Bool.false_eq_true, not_false_eq_true,
      not_true_eq_false, if_true, if_false]
    rw [hfmt, hp, h1, h2, h4]
    simp
  | num r =>
    obtain ⟨cs, hcs⟩ := lcd_print_is_data
      (int_to_string_fixed (int_to_string_fixed buffer (float_to_int (CFloat.num q)) 4)
        (float_to_int (CFloat.num r)) 4)
    refine ⟨codes "Cold:" ++ cs ++ codes "_C", ?_⟩
    simp only [display_temperatures_test, isnan, lcd_cmd, Bool.false_eq_true, not_false_eq_true,
      not_true_eq_false, if_true, if_false]
    rw [hcs, hfmt, hp, h1, h2, h3]
    simp

/-- What the display routine sends when the probe value is NaN. -/
theorem display_fault (buffer : List Nat) (internal_temp : CFloat) :
    ∃ line2 : List Nat,
      display_temperatures_test buffer CFloat.nan internal_temp =
        LcdEvent.cmd 0x80 ::
          ((codes "Temp:Error").map LcdEvent.data
            ++ LcdEvent.cmd 0xC0 :: line2.map LcdEvent.data) := by
  have h0 : lcd_print (c_string "Temp:Error") = (codes "Temp:Error").map LcdEvent.data := by decide
  have h2 : lcd_print (c_string "_C") = (codes "_C").map LcdEvent.data := by decide
  have h3 : lcd_print (c_string "Cold:") = (codes "Cold:").map LcdEvent.data := by decide
  cases internal_temp with
  | nan =>
    refine ⟨codes "Cold:Error", ?_⟩
    have h4 : lcd_print (c_string "Cold:Error") = (codes "Cold:Error").map LcdEvent.data := by decide
    simp only [display_temperatures_test, isnan, lcd_cmd, Bool.false_eq_true, not_false_eq_true,
      not_true_eq_false, if_true, if_false]
    rw [h0, h4]
    simp
  | num r =>
    obtain ⟨cs, hcs⟩ := lcd_print_is_data (int_to_string_fixed buffer (float_to_int (CFloat.num r)) 4)
    refine ⟨codes "Cold:" ++ cs ++ codes "_C", ?_⟩
    simp only [display_temperatures_test, isnan, lcd_cmd, Bool.false_eq_true, not_false_eq_true,
      not_true_eq_false, if_true, if_false]
    rw [hcs, h0, h2, h3]
    simp

/-! ## The cast to `int` of a decoded value -/

theorem tdiv_scale_nonneg (a d k : Int) (hd : 0 < d) (hk : 0 ≤ k) (h : a * 4 = k * d) :
    Int.tdiv a d = Int.tdiv k 4 := by
  have ha : 0 ≤ a := by
    by_contra hneg
    have h1 : 0 ≤ k * d := mul_nonneg hk hd.le
    omega
  rw [Int.tdiv_eq_ediv ha hd.le, Int.tdiv_eq_ediv hk (by decide)]
  calc a / d = (a * 4) / (d * 4) := (Int.mul_ediv_mul_of_pos_left a d (by decide)).symm
    _ = (k * d) / (4 * d) := by rw [h, mul_comm d 4]
    _ = k / 4 := Int.mul_ediv_mul_of_pos_left k 4 hd

theorem tdiv_scale (a d k : Int) (hd : 0 < d) (h : a * 4 = k * d) :
    Int.tdiv a d = Int.tdiv k 4 := by
  by_cases hk : 0 ≤ k
  · exact tdiv_scale_nonneg a d k hd hk h
  · have h2 : (-a) * 4 = (-k) * d := by rw [neg_mul, neg_mul, h]
    have := tdiv_scale_nonneg (-a) d (-k) hd (by omega) h2
    rw [Int.neg_tdiv, Int.neg_tdiv] at this
    exact neg_injective this

/-- The cast `(int)` of a decoded probe value: the quarter-degree count divided
by four, rounded toward zero. -/
theorem float_to_int_quarter (k : Int) :
    float_to_int (CFloat.num ((k : ℚ) * 0.25)) = Int.tdiv k 4 := by
  unfold float_to_int
  apply tdiv_scale
  · exact_mod_cast Rat.den_pos _
  · have h := Rat.num_div_den ((k:ℚ) * 0.25)
    have hd : ((((k:ℚ) * 0.25).den : ℚ)) ≠ 0 := by exact_mod_cast (Rat.den_pos _).ne'
    have h2 : ((((k:ℚ) * 0.25).num : ℚ)) * 4 = (k : ℚ) * (((k:ℚ) * 0.25).den : ℚ) := by
      have h3 := (div_eq_iff hd).mp h
      rw [h3]
      ring
    exact_mod_cast h2

theorem tdiv4 (k : Int) : Int.tdiv k 4 = if 0 ≤ k then k / 4 else -((-k) / 4) := by
  split
  · exact Int.tdiv_eq_ediv (by assumption) (by decide)
  · have := Int.tdiv_eq_ediv (a := -k) (b := 4) (by omega) (by decide)
    rw [Int.neg_tdiv] at this
    omega

theorem probe_int_bounds (raw : Nat) (h32 : raw < 2 ^ 32) :
    -2048 ≤ Int.tdiv (probe_field raw) 4 ∧ Int.tdiv (probe_field raw) 4 ≤ 2047 := by
  have hb := probe_field_bounds raw h32
  rw [tdiv4]
  split <;> omega

/-! ## One poll cycle: lemmas -/

theorem chars_after_cursor (l1 : List Nat) (c : Nat) (rest : List LcdEvent) :
    chars_after_cmd 0x80 (LcdEvent.cmd 0x80 :: (l1.map LcdEvent.data ++ LcdEvent.cmd c :: rest))
      = l1 := by
  unfold chars_after_cmd
  rw [if_pos rfl]
  exact data_run_chars l1 c rest

/-- What a poll cycle sends for a sample without fault flags. -/
theorem poll_cycle_numeric (buffer : List Nat) (raw : Nat) (h32 : raw < 2 ^ 32)
    (h8 : raw % 8 = 0) (hbuf : buffer.length = 16) :
    ∃ line2 : List Nat,
      poll_cycle buffer raw =
        LcdEvent.cmd 0x80 ::
          ((codes "Temp:" ++ format4 (Int.tdiv (probe_field raw) 4) ++ codes "_C").map LcdEvent.data
            ++ LcdEvent.cmd 0xC0 :: line2.map LcdEvent.data) := by
  unfold poll_cycle
  rw [get_thermocouple_temp_eq raw h32 h8]
  have hq := float_to_int_quarter (probe_field raw)
  have hb := probe_int_bounds raw h32
  obtain ⟨line2, h⟩ := display_numeric buffer ((probe_field raw : ℚ) * 0.25) (get_internal_temp raw)
    (by rw [hq]; omega) (by omega)
  rw [hq] at h
  exact ⟨line2, h⟩

/-- What a poll cycle sends for a sample with a fault flag. -/
theorem poll_cycle_fault (buffer : List Nat) (raw : Nat) (h8 : raw % 8 ≠ 0) :
    ∃ line2 : List Nat,
      poll_cycle buffer raw =
        LcdEvent.cmd 0x80 ::
          ((codes "Temp:Error").map LcdEvent.data
            ++ LcdEvent.cmd 0xC0 :: line2.map LcdEvent.data) := by
  unfold poll_cycle
  rw [get_thermocouple_temp_fault raw h8]
  exact display_fault buffer (get_internal_temp raw)

/-! ## The display on a probe fault: claim -/

/-- C7. A probe fault is shown as an explicit error and never as a number: in
one poll cycle the first byte sent is the cursor command `0x80`, and the
characters that follow it on the first line are exactly `"Temp:Error"` if and
only if some bit of [2:0] of the sample is set; otherwise they are `"Temp:"`,
four formatted characters (digits or a minus sign) and `"_C"`. -/
theorem probe_fault_display (raw : Nat) (buffer : List Nat) (h32 : raw < 2 ^ 32)
    (hbuf : buffer.length = 16) :
    (poll_cycle buffer raw).head? = some (LcdEvent.cmd 0x80) ∧
      (chars_after_cmd 0x80 (poll_cycle buffer raw) = codes "Temp:Error" ↔ fault_bits_set raw) ∧
      (¬ fault_bits_set raw → ∃ four : List Nat, four.length = 4 ∧
        (∀ c ∈ four, is_digit c ∨ c = 45) ∧
        chars_after_cmd 0x80 (poll_cycle buffer raw) = codes "Temp:" ++ four ++ codes "_C") := by
  by_cases h8 : raw % 8 = 0
  · have hnf : ¬ fault_bits_set raw := fun hf => (fault_bits_set_iff raw).mp hf h8
    obtain ⟨line2, h⟩ := poll_cycle_numeric buffer raw h32 h8 hbuf
    rw [h, chars_after_cursor]
    refine ⟨rfl, ?_, ?_⟩
    · constructor
      · intro heq
        have hl := congrArg List.length heq
        rw [List.length_append, List.length_append, format4_length] at hl
        exact absurd hl (by decide)
      · intro hf
        exact absurd hf hnf
    · intro _
      exact ⟨_, format4_length _, format4_chars _, rfl⟩
  · have hf : fault_bits_set raw := (fault_bits_set_iff raw).mpr h8
    obtain ⟨line2, h⟩ := poll_cycle_fault buffer raw h8
    rw [h, chars_after_cursor]
    refine ⟨rfl, ?_, ?_⟩
    · exact ⟨fun _ => hf, fun _ => rfl⟩
    · intro hnf
      exact absurd hf hnf

theorem probe_fault_display_witness :
    0x19000001 < 2 ^ 32 ∧ (List.replicate 16 0).length = 16 ∧
      (chars_after_cmd 0x80 (poll_cycle (List.replicate 16 0) 0x19000001) = codes "Temp:Error"
        ↔ fault_bits_set 0x19000001) :=
  ⟨by decide, by decide,
    (probe_fault_display 0x19000001 (List.replicate 16 0) (by decide) (by decide)).2.1⟩

/-! ## End-to-end rendering of the probe value: claim -/

theorem read_signed_digits (cs : List Nat) (h : ∀ c ∈ cs, is_digit c) :
    read_signed cs = ((read_digits cs : Nat) : Int) := by
  cases cs with
  | nil => rfl
  | cons c rest =>
    have hc : is_digit c := h c (List.mem_cons_self _ _)
    have hne : c ≠ 45 := by
      unfold is_digit at hc
      omega
    simp [read_signed, hne]

/-- Reading the width-4 field back: the value itself when it is not negative,
minus the three low-order digits of its magnitude when it is negative. -/
theorem read_signed_format4 (n : Int) (h2 : n ≤ 9999) :
    read_signed (format4 n) = if 0 ≤ n then n else -((-n) % 1000) := by
  unfold format4
  by_cases hn : 0 ≤ n
  · rw [if_pos hn, if_pos hn, read_signed_digits _ (fun c hc => digits_fixed_is_digit _ _ c hc),
      read_digits_fixed]
    omega
  · rw [if_neg hn, if_neg hn]
    simp only [read_signed, if_true, read_digits_fixed]
    omega

theorem quarter_gt (k : Int) : (-1000 : ℚ) < (k : ℚ) * 0.25 ↔ -4000 < k := by
  constructor
  · intro h
    have h4 : (-4000 : ℚ) < (k : ℚ) := by
      norm_num at h
      linarith
    exact_mod_cast h4
  · intro h
    have h4 : (-4000 : ℚ) < (k : ℚ) := by exact_mod_cast h
    norm_num
    linarith

/-- C9. For a sample with bits [2:0] clear and decoded probe temperature `t`,
the four characters shown between `"Temp:"` and `"_C"` are those that
`int_to_string_fixed` writes for `(int)t` with width 4.  They read back as
`(int)t` exactly when `t > -1000`; for `t ≤ -1000` (down to `-2048.00`) they
are a minus sign and the three low-order digits, the thousands digit being
lost: the sample `0x80000000`, `t = -2048.00`, is shown as `"-048"`. -/
theorem probe_rendering (raw : Nat) (buffer : List Nat) (h32 : raw < 2 ^ 32)
    (hc : ¬ fault_bits_set raw) (hbuf : buffer.length = 16) :
    (∃ (t : ℚ) (four : List Nat),
      get_thermocouple_temp raw = CFloat.num t ∧ -2048 ≤ t ∧
      float_to_int (CFloat.num t) = Int.tdiv (sign_extend14 (raw >>> 18)) 4 ∧
      four = (int_to_string_fixed buffer (float_to_int (CFloat.num t)) 4).take 4 ∧
      chars_after_cmd 0x80 (poll_cycle buffer raw) = codes "Temp:" ++ four ++ codes "_C" ∧
      (read_signed four = float_to_int (CFloat.num t) ↔ -1000 < t) ∧
      (t ≤ -1000 →
        four = 45 :: digits_fixed 3 (-(float_to_int (CFloat.num t))).toNat ∧
        read_signed four = -((-(float_to_int (CFloat.num t))) % 1000))) ∧
      get_thermocouple_temp 0x80000000 = CFloat.num (-2048) ∧
      chars_after_cmd 0x80 (poll_cycle buffer 0x80000000) = codes "Temp:-048_C" := by
  have h8 : raw % 8 = 0 := by
    by_contra hne
    exact hc ((fault_bits_set_iff raw).mpr hne)
  have hq := float_to_int_quarter (probe_field raw)
  have hb := probe_field_bounds raw h32
  have hn := probe_int_bounds raw h32
  have ht4 : (0 ≤ probe_field raw ∧ Int.tdiv (probe_field raw) 4 = probe_field raw / 4) ∨
      (probe_field raw < 0 ∧ Int.tdiv (probe_field raw) 4 = -((-probe_field raw) / 4)) := by
    have h := tdiv4 (probe_field raw)
    split_ifs at h with h0
    · exact Or.inl ⟨h0, h⟩
    · exact Or.inr ⟨by omega, h⟩
  obtain ⟨line2, hcycle⟩ := poll_cycle_numeric buffer raw h32 h8 hbuf
  have hfour : (int_to_string_fixed buffer (Int.tdiv (probe_field raw) 4) 4).take 4
      = format4 (Int.tdiv (probe_field raw) 4) := by
    rw [int_to_string_fixed_four buffer _ (by omega) (by omega)]
    exact List.take_left' (format4_length _)
  have hread := read_signed_format4 (Int.tdiv (probe_field raw) 4) (by omega)
  refine ⟨⟨(probe_field raw : ℚ) * 0.25, format4 (Int.tdiv (probe_field raw) 4),
    get_thermocouple_temp_eq raw h32 h8, ?_, ?_, ?_, ?_, ?_, ?_⟩, ?_, ?_⟩
  · have : (-8192 : ℚ) ≤ (probe_field raw : ℚ) := by exact_mod_cast hb.1
    norm_num
    linarith
  · rw [hq, sign_extend14_shift raw h32]
  · rw [hq, hfour]
  · rw [hcycle, chars_after_cursor]
  · rw [hq, hread, quarter_gt]
    by_cases h0 : 0 ≤ Int.tdiv (probe_field raw) 4
    · rw [if_pos h0]
      constructor
      · intro _
        omega
      · intro _
        rfl
    · rw [if_neg h0]
      constructor <;> intro h <;> omega
  · intro hle
    have hk : ¬ (-4000 < probe_field raw) := fun h => by
      have := (quarter_gt (probe_field raw)).mpr h
      linarith
    rw [hq, hread]
    have hneg : ¬ (0 ≤ Int.tdiv (probe_field raw) 4) := by omega
    rw [if_neg hneg]
    refine ⟨?_, rfl⟩
    unfold format4
    rw [if_neg hneg]
  · rw [get_thermocouple_temp_eq _ (by decide) (by decide)]
    have : probe_field 0x80000000 = -8192 := by decide
    rw [this]
    norm_num
  · obtain ⟨l2, h⟩ := poll_cycle_numeric buffer 0x80000000 (by decide) (by decide) hbuf
    rw [h, chars_after_cursor]
    have : probe_field 0x80000000 = -8192 := by decide
    rw [this]
    decide

theorem probe_rendering_witness :
    0xC1800000 < 2 ^ 32 ∧ ¬ fault_bits_set 0xC1800000 ∧ (List.replicate 16 0).length = 16 ∧
      ∃ (t : ℚ) (four : List Nat),
        get_thermocouple_temp 0xC1800000 = CFloat.num t ∧ -2048 ≤ t ∧
        float_to_int (CFloat.num t) = Int.tdiv (sign_extend14 (0xC1800000 >>> 18)) 4 ∧
        four = (int_to_string_fixed (List.replicate 16 0) (float_to_int (CFloat.num t)) 4).take 4 ∧
        chars_after_cmd 0x80 (poll_cycle (List.replicate 16 0) 0xC1800000)
          = codes "Temp:" ++ four ++ codes "_C" ∧
        (read_signed four = float_to_int (CFloat.num t) ↔ -1000 < t) ∧
        (t ≤ -1000 →
          four = 45 :: digits_fixed 3 (-(float_to_int (CFloat.num t))).toNat ∧
          read_signed four = -((-(float_to_int (CFloat.num t))) % 1000)) :=
  ⟨by decide, by decide, by decide,
    (probe_rendering 0xC1800000 (List.replicate 16 0) (by decide) (by decide) (by decide)).1⟩

/-! ## The character display: lemmas -/

theorem lcd_run_cons (s : LcdState) (e : LcdEvent) (evs : List LcdEvent) :
    lcd_run s (e :: evs) = lcd_run (lcd_step s e) evs := rfl

theorem lcd_run_append (s : LcdState) (evs1 evs2 : List LcdEvent) :
    lcd_run s (evs1 ++ evs2) = lcd_run (lcd_run s evs1) evs2 := by
  unfold lcd_run
  rw [List.foldl_append]

/-- Characters are stored from the cursor on, left to right; other cells keep
their content. -/
theorem lcd_run_data (cs : List Nat) (s : LcdState) :
    (lcd_run s (cs.map LcdEvent.data)).cursor = s.cursor + cs.length ∧
      ∀ a, (lcd_run s (cs.map LcdEvent.data)).cells a =
        if s.cursor ≤ a ∧ a < s.cursor + cs.length then cs.getD (a - s.cursor) 0 else s.cells a := by
  induction cs generalizing s with
  | nil =>
    refine ⟨rfl, fun a => ?_⟩
    have : ¬ (s.cursor ≤ a ∧ a < s.cursor + ([] : List Nat).length) := by
      simp
    rw [if_neg this]
    rfl
  | cons d cs ih =>
    rw [List.map_cons, lcd_run_cons]
    obtain ⟨hcur, hcells⟩ := ih (lcd_step s (LcdEvent.data d))
    have hstep_cur : (lcd_step s (LcdEvent.data d)).cursor = s.cursor + 1 := rfl
    have hstep_cells : ∀ a, (lcd_step s (LcdEvent.data d)).cells a
        = if a = s.cursor then d else s.cells a := fun _ => rfl
    constructor
    · rw [hcur, hstep_cur, List.length_cons]
      omega
    · intro a
      rw [hcells a, hstep_cur, hstep_cells a, List.length_cons]
      by_cases h1 : a = s.cursor
      · subst h1
        have hA : ¬ (s.cursor + 1 ≤ s.cursor ∧ s.cursor < s.cursor + 1 + cs.length) := by omega
        have hB : s.cursor ≤ s.cursor ∧ s.cursor < s.cursor + (cs.length + 1) := by omega
        rw [if_neg hA, if_pos rfl, if_pos hB, Nat.sub_self]
        rfl
      · by_cases h2 : s.cursor + 1 ≤ a ∧ a < s.cursor + 1 + cs.length
        · have hB : s.cursor ≤ a ∧ a < s.cursor + (cs.length + 1) := by omega
          have hidx : a - s.cursor = (a - (s.cursor + 1)) + 1 := by omega
          rw [if_pos h2, if_pos hB, hidx]
          rfl
        · have hB : ¬ (s.cursor ≤ a ∧ a < s.cursor + (cs.length + 1)) := by omega
          rw [if_neg h2, if_neg h1, if_neg hB]

/-- Effect on the first line of what one call of the display routine sends:
the characters of the first line are stored from column 0 on, the cells of the
first line to their right keep their content. -/
theorem lcd_run_cycle (s : LcdState) (l1 l2 : List Nat) (a : Nat) (ha : a < 0x40) :
    (lcd_run s (LcdEvent.cmd 0x80 ::
        (l1.map LcdEvent.data ++ LcdEvent.cmd 0xC0 :: l2.map LcdEvent.data))).cells a
      = if a < l1.length then l1.getD a 0 else s.cells a := by
  rw [lcd_run_cons, lcd_run_append, lcd_run_cons]
  have hs1_cur : (lcd_step s (LcdEvent.cmd 0x80)).cursor = 0 := by
    simp [lcd_step]
    decide
  have hs1_cells : (lcd_step s (LcdEvent.cmd 0x80)).cells = s.cells := by
    simp [lcd_step]
  obtain ⟨_, hc2⟩ := lcd_run_data l1 (lcd_step s (LcdEvent.cmd 0x80))
  have hs3_cur : ∀ t : LcdState, (lcd_step t (LcdEvent.cmd 0xC0)).cursor = 0x40 := by
    intro t
    simp [lcd_step]
    decide
  have hs3_cells : ∀ t : LcdState, (lcd_step t (LcdEvent.cmd 0xC0)).cells = t.cells := by
    intro t
    simp [lcd_step]
  obtain ⟨_, hc4⟩ := lcd_run_data l2
    (lcd_step (lcd_run (lcd_step s (LcdEvent.cmd 0x80)) (l1.map LcdEvent.data)) (LcdEvent.cmd 0xC0))
  rw [hc4 a, hs3_cur, hs3_cells, hc2 a, hs1_cur, hs1_cells]
  have hno : ¬ (0x40 ≤ a ∧ a < 0x40 + l2.length) := by omega
  rw [if_neg hno]
  by_cases h : a < l1.length
  · rw [if_pos h, if_pos ⟨Nat.zero_le _, by omega⟩, Nat.sub_zero]
  · rw [if_neg h, if_neg (by omega)]

theorem four_chars (l : List Nat) (h : l.length = 4) : ∃ a b c d, l = [a, b, c, d] := by
  rcases l with _ | ⟨a, _ | ⟨b, _ | ⟨c, _ | ⟨d, _ | ⟨e, l⟩⟩⟩⟩⟩ <;> simp at h
  exact ⟨a, b, c, d, rfl⟩

theorem no_clear_in_cycle (l1 l2 : List Nat) :
    LcdEvent.cmd 0x01 ∉ LcdEvent.cmd 0x80 ::
      (l1.map LcdEvent.data ++ LcdEvent.cmd 0xC0 :: l2.map LcdEvent.data) := by
  simp

/-! ## Stale character after a fault: claim -/

/-- C10. For a sample without fault flags `display_temperatures_test` sends 11
characters to the first line (`"Temp:"`, four characters, `"_C"`), for a sample
with a fault flag only 10 (`"Temp:Error"`), and it never sends the clear
command `0x01`.  So when a fault cycle follows a numeric cycle, column 10 of the
first line is left as it was, still holding `'C'`, and the line reads
`"Temp:ErrorC"`. -/
theorem stale_unit_after_fault (s : LcdState) (raw1 raw2 : Nat) (buffer1 buffer2 : List Nat)
    (h1 : raw1 < 2 ^ 32) (_h2 : raw2 < 2 ^ 32)
    (hb1 : buffer1.length = 16) (_hb2 : buffer2.length = 16)
    (hnum : ¬ fault_bits_set raw1) (hfault : fault_bits_set raw2) :
    (chars_after_cmd 0x80 (display_temperatures_test buffer1 (get_thermocouple_temp raw1)
        (get_internal_temp raw1))).length = 11 ∧
      (chars_after_cmd 0x80 (display_temperatures_test buffer2 (get_thermocouple_temp raw2)
        (get_internal_temp raw2))).length = 10 ∧
      LcdEvent.cmd 0x01 ∉ poll_cycle buffer1 raw1 ∧
      LcdEvent.cmd 0x01 ∉ poll_cycle buffer2 raw2 ∧
      (lcd_run s (poll_cycle buffer1 raw1)).cells 10 = 67 ∧
      (lcd_run (lcd_run s (poll_cycle buffer1 raw1)) (poll_cycle buffer2 raw2)).cells 10
        = (lcd_run s (poll_cycle buffer1 raw1)).cells 10 ∧
      first_line (lcd_run (lcd_run s (poll_cycle buffer1 raw1)) (poll_cycle buffer2 raw2)) 11
        = codes "Temp:ErrorC" := by
  have h8 : raw1 % 8 = 0 := by
    by_contra hne
    exact hnum ((fault_bits_set_iff raw1).mpr hne)
  have h8f : raw2 % 8 ≠ 0 := (fault_bits_set_iff raw2).mp hfault
  obtain ⟨l2, hc1⟩ := poll_cycle_numeric buffer1 raw1 h1 h8 hb1
  obtain ⟨l2f, hc2⟩ := poll_cycle_fault buffer2 raw2 h8f
  obtain ⟨a, b, c, d, hfour⟩ := four_chars _ (format4_length (Int.tdiv (probe_field raw1) 4))
  have hp1 : display_temperatures_test buffer1 (get_thermocouple_temp raw1) (get_internal_temp raw1)
      = poll_cycle buffer1 raw1 := rfl
  have hp2 : display_temperatures_test buffer2 (get_thermocouple_temp raw2) (get_internal_temp raw2)
      = poll_cycle buffer2 raw2 := rfl
  rw [hp1, hp2, hc1, hc2, hfour]
  have hcol10 : (lcd_run s (LcdEvent.cmd 0x80 ::
      ((codes "Temp:" ++ [a, b, c, d] ++ codes "_C").map LcdEvent.data
        ++ LcdEvent.cmd 0xC0 :: l2.map LcdEvent.data))).cells 10 = 67 := by
    rw [lcd_run_cycle s _ l2 10 (by decide)]
    rfl
  have hafter : ∀ (t : LcdState) (col : Nat), col < 0x40 →
      (lcd_run t (LcdEvent.cmd 0x80 ::
        ((codes "Temp:Error").map LcdEvent.data
          ++ LcdEvent.cmd 0xC0 :: l2f.map LcdEvent.data))).cells col
        = if col < 10 then (codes "Temp:Error").getD col 0 else t.cells col := by
    intro t col hcol
    rw [lcd_run_cycle t _ l2f col hcol]
    rfl
  refine ⟨?_, ?_, no_clear_in_cycle _ _, no_clear_in_cycle _ _, hcol10, ?_, ?_⟩
  · rw [chars_after_cursor]
    rfl
  · rw [chars_after_cursor]
    rfl
  · rw [hafter _ 10 (by decide)]
    rfl
  · have hr : List.range 11 = [0, 1, 2, 3, 4, 5, 6, 7, 8, 9, 10] := by decide
    unfold first_line
    rw [hr]
    simp only [List.map_cons, List.map_nil]
    rw [hafter _ 0 (by decide), hafter _ 1 (by decide), hafter _ 2 (by decide),
      hafter _ 3 (by decide), hafter _ 4 (by decide), hafter _ 5 (by decide),
      hafter _ 6 (by decide), hafter _ 7 (by decide), hafter _ 8 (by decide),
      hafter _ 9 (by decide), hafter _ 10 (by decide), hcol10]
    rfl

theorem stale_unit_after_fault_witness :
    0x19000000 < 2 ^ 32 ∧ 0x19000001 < 2 ^ 32 ∧ ¬ fault_bits_set 0x19000000 ∧
      fault_bits_set 0x19000001 ∧
      first_line (lcd_run (lcd_run ⟨fun _ => 0x20, 0⟩ (poll_cycle (List.replicate 16 0) 0x19000000))
        (poll_cycle (List.replicate 16 0) 0x19000001)) 11 = codes "Temp:ErrorC" :=
  ⟨by decide, by decide, by decide, by decide,
    (stale_unit_after_fault ⟨fun _ => 0x20, 0⟩ 0x19000000 0x19000001 (List.replicate 16 0)
      (List.replicate 16 0) (by decide) (by decide) (by decide) (by decide) (by decide)
      (by decide)).2.2.2.2.2.2⟩

end Thermocouple
